import Mathlib

/-!
# Verification of the YouTube transcript RAG assistant core

Shallow embedding of the core pure logic of the repository:

* `utils/chunker.py` — `build_chunks` and its helpers (timestamp-aware
  transcript chunking with word-budget overlap);
* `utils/rag_pipeline.py` — the conversation-memory operations
  `_get_history` / `_save_history` and the `ask` entry point;
* `utils/embedder.py` — `index_documents` (video-level deduplicated
  indexing into the vector store).

Python `while` loops are modelled by structurally recursive functions
(the outer chunking loop takes an explicit fuel argument; fuel adequacy
is proved below, which is exactly the termination content of the loop).
Python floats carrying segment start times are modelled as rationals;
`int(x)` on a float is truncation toward zero, modelled by `pyInt`.
-/

/-- Python `str.strip()` (trim surrounding whitespace), computed on the
character list so that it reduces in the kernel. -/
def pyStrip (s : String) : String :=
  ⟨((s.data.dropWhile Char.isWhitespace).reverse.dropWhile Char.isWhitespace).reverse⟩

/-- Count of maximal non-whitespace runs in a character list (`inWord` says
whether the previous character was part of a word). -/
def wordRuns : List Char → Bool → Nat
  | [], _ => 0
  | c :: rest, inWord =>
    if c.isWhitespace then wordRuns rest false
    else (if inWord then 0 else 1) + wordRuns rest true

/-- The helper `_word_count` of `utils/chunker.py`: `len(text.split())` — the number of
maximal whitespace-separated words of `text`. -/
def word_count (text : String) : Nat := wordRuns text.data false

/-- Python `int(...)` applied to a (rational-modelled) float: truncation
toward zero. -/
def pyInt (q : ℚ) : ℤ := q.num.tdiv (q.den : ℤ)

/-- One transcript segment (`{"text": ..., "start": ..., "duration": ...}`). -/
structure Segment where
  text : String
  start : ℚ
  duration : ℚ
deriving DecidableEq, Repr

/-- The transcript dict produced by `utils/transcript_fetcher.fetch_transcript`
(keys `video_id`, `title`, `url`, `segments`). -/
structure Transcript where
  video_id : String
  title : String
  url : String
  segments : List Segment
deriving DecidableEq, Repr

/-- A produced chunk: a LangChain `Document` with `page_content` and the
metadata written by `build_chunks` / read back by the embedder. -/
structure Chunk where
  page_content : String
  video_id : String
  video_title : String
  start_time : ℤ
  url : String
deriving DecidableEq, Repr

/-- Word count of a segment's trimmed text. -/
def wcOf (s : Segment) : Nat := word_count (pyStrip s.text)

/-- The inner collection loop of `build_chunks` (chunker.py lines 52-62):

```
chunk_segments = []; word_count = 0
while i + len(chunk_segments) < len(segments) and word_count < target_words:
    seg = segments[i + len(chunk_segments)]
    text = (seg.get("text") or "").strip()
    if not text: i += 1; continue
    chunk_segments.append(seg); word_count += _word_count(text)
```

`rest` is the suffix of `segments` from the scan position
`i + len(chunk_segments)`, so the loop is structural recursion on `rest`.
Returns the final `i` and `chunk_segments`. -/
def collectGo : List Segment → Nat → List Segment → Nat → Nat → Nat × List Segment
  | [], i, acc, _, _ => (i, acc)
  | seg :: rest, i, acc, wc, target =>
    if wc < target then
      if pyStrip seg.text = "" then
        collectGo rest (i + 1) acc wc target
      else
        collectGo rest i (acc ++ [seg]) (wc + word_count (pyStrip seg.text)) target
    else (i, acc)

/-- The backward overlap walk of `build_chunks` (chunker.py lines 85-92),
expressed as the number of segments consumed from the end of the chunk:

```
overlap_count = 0; overlap_start = len(chunk_segments) - 1
while overlap_start >= 0 and overlap_count < overlap_words:
    overlap_count += _word_count(...); overlap_start -= 1
overlap_start += 1
```

walking the reversed chunk; the final `overlap_start` is
`chunk.length - overlapConsumed chunk.reverse 0 overlap_words`. -/
def overlapConsumed : List Segment → Nat → Nat → Nat
  | [], _, _ => 0
  | s :: rev, oc, overlap =>
    if oc < overlap then 1 + overlapConsumed rev (oc + wcOf s) overlap else 0

/-- The index advance at the end of one outer iteration (chunker.py line 94):
`i += overlap_start if overlap_start > 0 else max(len(chunk_segments) - 1, 1)`. -/
def advance (chunk : List Segment) (overlap_words : Nat) : Nat :=
  let overlap_start := chunk.length - overlapConsumed chunk.reverse 0 overlap_words
  if overlap_start > 0 then overlap_start else max (chunk.length - 1) 1

/-- Assembling one output Document (chunker.py lines 67-82): space-joined
trimmed segment texts, stripped; `start_time = int(chunk_segments[0]["start"])`. -/
def mkChunk (vid title url : String) (chunkSegs : List Segment) (s0 : Segment) : Chunk :=
  { page_content := pyStrip (String.intercalate " " (chunkSegs.map (fun s => pyStrip s.text)))
    video_id := vid
    video_title := title
    start_time := pyInt s0.start
    url := url }

/-- The outer `while i < len(segments)` loop of `build_chunks`
(chunker.py lines 51-96), with explicit fuel bounding the number of
iterations; `none` means the fuel ran out before the loop finished. -/
def buildLoopF : Nat → String → String → String → List Segment → Nat → Nat → Nat → Option (List Chunk)
  | 0, _, _, _, _, _, _, _ => none
  | fuel + 1, vid, title, url, segments, i, target_words, overlap_words =>
    if i < segments.length then
      let r := collectGo (segments.drop i) i [] 0 target_words
      match r.2 with
      | [] => some []
      | s0 :: _ =>
        match buildLoopF fuel vid title url segments (r.1 + advance r.2 overlap_words)
            target_words overlap_words with
        | some docs => some (mkChunk vid title url r.2 s0 :: docs)
        | none => none
    else some []

/-- The function `build_chunks` with the loop fuel exposed (enough fuel returns `some`). -/
def buildChunksF (fuel : Nat) (transcript : Transcript)
    (target_words overlap_words : Nat) : Option (List Chunk) :=
  let vid := transcript.video_id
  let title := if transcript.title = "" then "Untitled video" else transcript.title
  let url := transcript.url
  let segments := transcript.segments
  if segments = [] then some []
  else buildLoopF fuel vid title url segments 0 target_words overlap_words

/-- The function `utils/chunker.build_chunks(transcript, target_words, overlap_words)`.
The source defaults are `target_words = 400`, `overlap_words = 50`.
Fuel `segments.length + 1` is sufficient (proved below). -/
def build_chunks (transcript : Transcript) (target_words overlap_words : Nat) : List Chunk :=
  (buildChunksF (transcript.segments.length + 1) transcript target_words overlap_words).getD []

/-- Proof helper: the scan position where the inner collection loop stops,
given the suffix `rest` from position `p` and running word count `wc`.
`collectGo`'s final `i + chunk_segments.length` equals this (proved below). -/
def scanEnd : List Segment → Nat → Nat → Nat → Nat
  | [], p, _, _ => p
  | s :: rest, p, wc, target =>
    if wc < target then scanEnd rest (p + 1) (wc + wcOf s) target else p

/-- Proof helper: the chunk list produced by the outer loop started at
index `i`, with the (sufficient) fuel `segments.length + 1`. -/
def chunkListFrom (vid title url : String) (segments : List Segment)
    (i target_words overlap_words : Nat) : List Chunk :=
  (buildLoopF (segments.length + 1) vid title url segments i target_words overlap_words).getD []

/- ----------------------------------------------------------------------
`utils/rag_pipeline.py`: conversation memory and the `ask` entry point.
---------------------------------------------------------------------- -/

/-- The module-level `_MEMORY_STORE: Dict[str, List[tuple]]`, modelled as a
total map defaulting to `[]` (`_MEMORY_STORE.get(sid, [])`). -/
def SessionStore : Type := String → List (String × String)

/-- The store at process start: no session has any exchange. -/
def emptyStore : SessionStore := fun _ => []

/-- The session key used by both `_get_history` and `_save_history`:
`sid = (session_id or "").strip() or "default"`. -/
def normSid (session_id : String) : String :=
  if pyStrip session_id = "" then "default" else pyStrip session_id

/-- The exchanges surfaced by `_get_history`: `exchanges[-5:]`
(rag_pipeline.py line 68). -/
def historyWindow (store : SessionStore) (session_id : String) : List (String × String) :=
  let exchanges := store (normSid session_id)
  exchanges.drop (exchanges.length - 5)

/-- The function `rag_pipeline._get_history(session_id)`: the last five exchanges of the
session, formatted as alternating `Human:` / `Assistant:` lines. -/
def get_history (store : SessionStore) (session_id : String) : String :=
  let exchanges := historyWindow store session_id
  if exchanges = [] then ""
  else
    String.intercalate "\n"
      ((exchanges.map (fun p => ["Human: " ++ p.1, "Assistant: " ++ p.2])).flatten)

/-- The function `rag_pipeline._save_history(session_id, question, answer)`: unconditional
append under the normalised key (lazy creation of the entry is the
`if sid not in _MEMORY_STORE` branch). -/
def save_history (store : SessionStore) (session_id question answer : String) : SessionStore :=
  fun k =>
    if k = normSid session_id then store (normSid session_id) ++ [(question, answer)]
    else store k

/-- The exception information Python attaches to a failure:
`type(exc).__name__` and `str(exc)`. -/
structure ExcInfo where
  name : String
  msg : String
deriving DecidableEq, Repr

/-- The retrieval-and-generation step `rag_chain.invoke({...})` (the LCEL
chain built by `_build_rag_chain`, invoked inside the `try`): an external
call taking the question and formatted chat history and either returning an
answer or raising. -/
def RagChain : Type := String → String → Except ExcInfo String

/-- The user-facing failure string of `ask`'s `except` branch:
`f"Sorry — I ran into an error while answering that. ({type(exc).__name__}: {exc})"`. -/
def errorAnswer (e : ExcInfo) : String :=
  "Sorry — I ran into an error while answering that. (" ++ e.name ++ ": " ++ e.msg ++ ")"

/-- The function `rag_pipeline.ask(question, session_id)`.  The module globals it touches
are made explicit: `chain` is the RAG chain, `api_key` the value of
`os.getenv("OPENAI_API_KEY", "")`, and `store` the memory store; the result
pairs the returned answer with the store after the call. -/
def ask (chain : RagChain) (api_key : String) (store : SessionStore)
    (question session_id : String) : String × SessionStore :=
  let q := pyStrip question
  if q = "" then ("Please enter a question.", store)
  else if pyStrip api_key = "" then
    ("Missing OPENAI_API_KEY. Add it to your .env file and restart the app.", store)
  else
    let chat_history := get_history store session_id
    match chain q chat_history with
    | .ok answer => (answer, save_history store session_id q answer)
    | .error exc => (errorAnswer exc, store)

/- ----------------------------------------------------------------------
`utils/embedder.py`: `index_documents` over the Chroma collection,
modelled as the list of stored documents (`add_documents` appends;
`get(where={"video_id": vid})` filters by exact metadata match).
---------------------------------------------------------------------- -/

/-- The function `embedder.index_documents(documents)` acting on the collection `store`;
returns the collection after the call. -/
def index_documents (store : List Chunk) (documents : List Chunk) : List Chunk :=
  if documents = [] then store
  else
    let video_ids :=
      ((documents.filter (fun d => d.video_id ≠ "")).map (fun d => pyStrip d.video_id)).dedup
    if video_ids = [] then store ++ documents
    else
      let existing_video_ids :=
        video_ids.filter
          (fun vid => vid ≠ "" ∧ (store.filter (fun s => s.video_id = vid)) ≠ [])
      let videos_to_index := video_ids.filter (fun vid => vid ∉ existing_video_ids)
      if videos_to_index = [] then store
      else
        let docs_to_add :=
          documents.filter (fun d => pyStrip d.video_id ∈ videos_to_index)
        if docs_to_add = [] then store else store ++ docs_to_add

/- ----------------------------------------------------------------------
Concrete instances used by counterexamples and witnesses.
---------------------------------------------------------------------- -/

/-- A segment with the given number of one-letter words. -/
def wordsSeg (w : Nat) (st : ℚ) : Segment :=
  ⟨String.intercalate " " (List.replicate w "w"), st, 1⟩

/-- Five one-word segments: monotonicity counterexample input. -/
def trFive : Transcript :=
  ⟨"v", "T", "u", [wordsSeg 1 0, wordsSeg 1 1, wordsSeg 1 2, wordsSeg 1 3, wordsSeg 1 4]⟩

/-- The rational −1/2 (a representable float, negative non-integer). -/
def negHalf : ℚ := ⟨-1, 2, by norm_num, by norm_num⟩

/-- A transcript whose single segment starts at −1/2 seconds. -/
def trNegStart : Transcript := ⟨"v", "T", "u", [⟨"hello", negHalf, 1⟩]⟩

/-- A transcript with one whitespace-only segment. -/
def trBlank : Transcript := ⟨"v", "T", "u", [⟨"  ", 0, 1⟩]⟩

/-- A transcript with one ordinary segment. -/
def trHello : Transcript := ⟨"v", "T", "u", [⟨"hello world", 7, 2⟩]⟩

/-- The single chunk `build_chunks` produces from `trHello`. -/
def chunkHello : Chunk := ⟨"hello world", "v", "T", 7, "u"⟩

/-- A store holding six exchanges for session `"s"`. -/
def store6 : SessionStore := fun k =>
  if k = "s" then
    [("q1", "a1"), ("q2", "a2"), ("q3", "a3"), ("q4", "a4"), ("q5", "a5"), ("q6", "a6")]
  else []

/-- A RAG chain that always raises. -/
def failChain : RagChain := fun _ _ => .error ⟨"ValueError", "boom"⟩

/-- A RAG chain that always answers `"fine"`. -/
def okChain : RagChain := fun _ _ => .ok "fine"

/-- Stored chunk of video `vidA`. -/
def chA : Chunk := ⟨"ca", "vidA", "tA", 0, "uA"⟩

/-- Chunk of a fresh video `vidB`. -/
def chB : Chunk := ⟨"cb", "vidB", "tB", 5, "uB"⟩

/-- A second chunk of the already-stored video `vidA`. -/
def chA2 : Chunk := ⟨"ca2", "vidA", "tA", 9, "uA"⟩

/- ----------------------------------------------------------------------
Lemmas about the inner collection loop.
---------------------------------------------------------------------- -/

theorem wcOf_of_blank {s : Segment} (h : pyStrip s.text = "") : wcOf s = 0 := by
  simp [wcOf, h, word_count, wordRuns]

theorem scanEnd_ge (rest : List Segment) (p wc t : Nat) : p ≤ scanEnd rest p wc t := by
  induction rest generalizing p wc with
  | nil => simp [scanEnd]
  | cons s rest ih =>
    simp only [scanEnd]
    split
    · exact Nat.le_trans (Nat.le_succ p) (ih (p + 1) _)
    · exact Nat.le_refl p

theorem scanEnd_le (rest : List Segment) (p wc t : Nat) :
    scanEnd rest p wc t ≤ p + rest.length := by
  induction rest generalizing p wc with
  | nil => simp [scanEnd]
  | cons s rest ih =>
    simp only [scanEnd]
    split
    · exact Nat.le_trans (ih (p + 1) _) (by simp [List.length_cons]; omega)
    · exact Nat.le_add_right p _

theorem scanEnd_anti_wc (rest : List Segment) (p : Nat) {wc wc' : Nat} (t : Nat)
    (h : wc ≤ wc') : scanEnd rest p wc' t ≤ scanEnd rest p wc t := by
  induction rest generalizing p wc wc' with
  | nil => simp [scanEnd]
  | cons s rest ih =>
    simp only [scanEnd]
    by_cases h' : wc' < t
    · rw [if_pos h', if_pos (Nat.lt_of_le_of_lt h h')]
      exact ih (p + 1) (Nat.add_le_add_right h _)
    · rw [if_neg h']
      split
      · exact Nat.le_trans (Nat.le_succ p) (scanEnd_ge _ _ _ _)
      · exact Nat.le_refl p

theorem scanEnd_mono_t (rest : List Segment) (p wc : Nat) {t t' : Nat} (h : t ≤ t') :
    scanEnd rest p wc t ≤ scanEnd rest p wc t' := by
  induction rest generalizing p wc with
  | nil => simp [scanEnd]
  | cons s rest ih =>
    simp only [scanEnd]
    by_cases h1 : wc < t
    · rw [if_pos h1, if_pos (Nat.lt_of_lt_of_le h1 h)]
      exact ih (p + 1) _
    · rw [if_neg h1]
      split
      · exact Nat.le_trans (Nat.le_succ p) (scanEnd_ge _ _ _ _)
      · exact Nat.le_refl p

theorem scanEnd_succ_of_lt {segs : List Segment} {i t : Nat} (hi : i < segs.length)
    (ht : 1 ≤ t) : i + 1 ≤ scanEnd (segs.drop i) i 0 t := by
  rw [List.drop_eq_getElem_cons hi]
  simp only [scanEnd, if_pos (Nat.lt_of_lt_of_le Nat.zero_lt_one ht)]
  exact scanEnd_ge _ _ _ _

theorem scanEnd_step (s : Segment) (rest : List Segment) (p t : Nat) :
    scanEnd (s :: rest) p 0 t ≤ scanEnd rest (p + 1) 0 t := by
  simp only [scanEnd]
  split
  · exact scanEnd_anti_wc rest (p + 1) t (Nat.zero_le _)
  · exact Nat.le_trans (Nat.le_succ p) (scanEnd_ge _ _ _ _)

theorem scanEnd_drop_succ (segs : List Segment) (t i : Nat) :
    scanEnd (segs.drop i) i 0 t ≤ scanEnd (segs.drop (i + 1)) (i + 1) 0 t := by
  by_cases hi : i < segs.length
  · rw [List.drop_eq_getElem_cons hi]
    exact scanEnd_step _ _ _ _
  · rw [List.drop_eq_nil_of_le (Nat.le_of_not_lt hi),
      List.drop_eq_nil_of_le (Nat.le_trans (Nat.le_of_not_lt hi) (Nat.le_succ i))]
    simp [scanEnd]

theorem scanEnd_drop_mono (segs : List Segment) (t : Nat) {i j : Nat} (h : i ≤ j) :
    scanEnd (segs.drop i) i 0 t ≤ scanEnd (segs.drop j) j 0 t := by
  induction j, h using Nat.le_induction with
  | base => exact Nat.le_refl _
  | succ j hij ih => exact Nat.le_trans ih (scanEnd_drop_succ segs t j)

theorem collectGo_scanEnd (rest : List Segment) (i : Nat) (acc : List Segment)
    (wc t : Nat) :
    (collectGo rest i acc wc t).1 + (collectGo rest i acc wc t).2.length
      = scanEnd rest (i + acc.length) wc t := by
  induction rest generalizing i acc wc with
  | nil => simp [collectGo, scanEnd]
  | cons s rest ih =>
    simp only [collectGo, scanEnd]
    by_cases h1 : wc < t
    · rw [if_pos h1, if_pos h1]
      by_cases h2 : pyStrip s.text = ""
      · rw [if_pos h2, wcOf_of_blank h2]
        have h3 := ih (i + 1) acc wc
        have h4 : i + 1 + acc.length = i + acc.length + 1 := by omega
        rw [h4] at h3
        simpa using h3
      · rw [if_neg h2]
        have := ih i (acc ++ [s]) (wc + word_count (pyStrip s.text))
        simp only [List.length_append, List.length_cons, List.length_nil] at this ⊢
        rw [this]
        have : wcOf s = word_count (pyStrip s.text) := rfl
        rw [← this]
        ring_nf
    · rw [if_neg h1, if_neg h1]

theorem collectGo_i_ge (rest : List Segment) (i : Nat) (acc : List Segment) (wc t : Nat) :
    i ≤ (collectGo rest i acc wc t).1 := by
  induction rest generalizing i acc wc with
  | nil => simp [collectGo]
  | cons s rest ih =>
    simp only [collectGo]
    split
    · split
      · exact Nat.le_trans (Nat.le_succ i) (ih (i + 1) acc wc)
      · exact ih i _ _
    · exact Nat.le_refl i

theorem collectGo_acc (rest : List Segment) (i : Nat) (acc : List Segment) (wc t : Nat) :
    ∃ ext, (collectGo rest i acc wc t).2 = acc ++ ext
      ∧ ext.Sublist rest ∧ ∀ x ∈ ext, pyStrip x.text ≠ "" := by
  induction rest generalizing i acc wc with
  | nil => exact ⟨[], by simp [collectGo], List.nil_sublist _, by simp⟩
  | cons s rest ih =>
    simp only [collectGo]
    by_cases h1 : wc < t
    · rw [if_pos h1]
      by_cases h2 : pyStrip s.text = ""
      · rw [if_pos h2]
        obtain ⟨ext, he, hsub, hnb⟩ := ih (i + 1) acc wc
        exact ⟨ext, he, hsub.cons s, hnb⟩
      · rw [if_neg h2]
        obtain ⟨ext, he, hsub, hnb⟩ := ih i (acc ++ [s]) (wc + word_count (pyStrip s.text))
        refine ⟨s :: ext, by simp [he], hsub.cons₂ s, fun x hx => ?_⟩
        rcases List.mem_cons.1 hx with rfl | hx
        · exact h2
        · exact hnb x hx
    · rw [if_neg h1]
      exact ⟨[], by simp, List.nil_sublist _, by simp⟩

theorem collectGo_nil_iff (rest : List Segment) (i t : Nat) (ht : 1 ≤ t) :
    (collectGo rest i [] 0 t).2 = [] ↔ ∀ s ∈ rest, pyStrip s.text = "" := by
  induction rest generalizing i with
  | nil => simp [collectGo]
  | cons s rest ih =>
    simp only [collectGo, if_pos (Nat.lt_of_lt_of_le Nat.zero_lt_one ht)]
    by_cases h2 : pyStrip s.text = ""
    · rw [if_pos h2]
      rw [ih (i + 1)]
      constructor
      · intro h x hx
        rcases List.mem_cons.1 hx with rfl | hx
        · exact h2
        · exact h x hx
      · intro h x hx
        exact h x (List.mem_cons_of_mem s hx)
    · rw [if_neg h2]
      constructor
      · intro h
        obtain ⟨ext, he, -, -⟩ :=
          collectGo_acc rest i ([] ++ [s]) (0 + word_count (pyStrip s.text)) t
        rw [he] at h
        simp at h
      · intro h
        exact absurd (h s (List.mem_cons_self _ _)) h2

/- ----------------------------------------------------------------------
Lemmas about the advance step and the outer loop.
---------------------------------------------------------------------- -/

theorem advance_pos (chunk : List Segment) (ow : Nat) : 1 ≤ advance chunk ow := by
  simp only [advance]
  split
  · omega
  · exact Nat.le_max_right _ _

theorem overlapConsumed_zero (rev : List Segment) (oc : Nat) :
    overlapConsumed rev oc 0 = 0 := by
  cases rev with
  | nil => rfl
  | cons s rev => simp [overlapConsumed]

theorem advance_zero_overlap (chunk : List Segment) (h : chunk ≠ []) :
    advance chunk 0 = chunk.length := by
  unfold advance
  rw [overlapConsumed_zero]
  have : 0 < chunk.length := List.length_pos.2 h
  simp only [Nat.sub_zero]
  rw [if_pos this]

theorem buildLoopF_isSome (vid title url : String) (segments : List Segment)
    (tw ow : Nat) :
    ∀ fuel i, segments.length - i < fuel →
      (buildLoopF fuel vid title url segments i tw ow).isSome := by
  intro fuel
  induction fuel with
  | zero => intro i h; omega
  | succ fuel ih =>
    intro i h
    simp only [buildLoopF]
    by_cases hi : i < segments.length
    · rw [if_pos hi]
      rcases hr : (collectGo (segments.drop i) i [] 0 tw).2 with _ | ⟨s0, ss⟩
      · simp
      · have hge : i ≤ (collectGo (segments.drop i) i [] 0 tw).1 :=
          collectGo_i_ge _ _ _ _ _
        have hadv : 1 ≤ advance (s0 :: ss) ow := advance_pos _ _
        have hrec : segments.length -
            ((collectGo (segments.drop i) i [] 0 tw).1 + advance (s0 :: ss) ow) < fuel := by
          omega
        have hsome2 := ih _ hrec
        rcases ho : buildLoopF fuel vid title url segments
            ((collectGo (segments.drop i) i [] 0 tw).1 + advance (s0 :: ss) ow)
            tw ow with _ | docs
        · rw [ho] at hsome2; simp at hsome2
        · simp only [hr, ho]
          rfl
    · rw [if_neg hi]
      simp

theorem buildLoopF_stable (vid title url : String) (segments : List Segment)
    (tw ow : Nat) :
    ∀ fuel fuel' i, segments.length - i < fuel → segments.length - i < fuel' →
      buildLoopF fuel vid title url segments i tw ow
        = buildLoopF fuel' vid title url segments i tw ow := by
  intro fuel
  induction fuel with
  | zero => intro fuel' i h; omega
  | succ fuel ih =>
    intro fuel' i h h'
    cases fuel' with
    | zero => omega
    | succ fuel' =>
      simp only [buildLoopF]
      by_cases hi : i < segments.length
      · rw [if_pos hi, if_pos hi]
        rcases hr : (collectGo (segments.drop i) i [] 0 tw).2 with _ | ⟨s0, ss⟩
        · rfl
        · have hge : i ≤ (collectGo (segments.drop i) i [] 0 tw).1 :=
            collectGo_i_ge _ _ _ _ _
          have hadv : 1 ≤ advance (s0 :: ss) ow := advance_pos _ _
          have hrec : segments.length -
              ((collectGo (segments.drop i) i [] 0 tw).1 + advance (s0 :: ss) ow)
                < fuel := by
            omega
          have hrec' : segments.length -
              ((collectGo (segments.drop i) i [] 0 tw).1 + advance (s0 :: ss) ow)
                < fuel' := by
            omega
          rw [ih fuel' _ hrec hrec']
      · rw [if_neg hi, if_neg hi]

theorem chunkListFrom_stop (vid title url : String) (segments : List Segment)
    {i : Nat} (tw ow : Nat) (h : segments.length ≤ i) :
    chunkListFrom vid title url segments i tw ow = [] := by
  unfold chunkListFrom
  rw [show segments.length + 1 = segments.length + 1 from rfl]
  simp only [buildLoopF, if_neg (Nat.not_lt.2 h)]
  rfl

theorem chunkListFrom_step_nil (vid title url : String) (segments : List Segment)
    {i : Nat} (tw ow : Nat) (hi : i < segments.length)
    (hr : (collectGo (segments.drop i) i [] 0 tw).2 = []) :
    chunkListFrom vid title url segments i tw ow = [] := by
  unfold chunkListFrom
  simp only [buildLoopF, if_pos hi, hr]
  rfl

theorem chunkListFrom_step_cons (vid title url : String) (segments : List Segment)
    {i : Nat} (tw ow : Nat) (hi : i < segments.length) {s0 : Segment} {ss : List Segment}
    (hr : (collectGo (segments.drop i) i [] 0 tw).2 = s0 :: ss) :
    chunkListFrom vid title url segments i tw ow
      = mkChunk vid title url (s0 :: ss) s0
        :: chunkListFrom vid title url segments
            ((collectGo (segments.drop i) i [] 0 tw).1 + advance (s0 :: ss) ow) tw ow := by
  have hge : i ≤ (collectGo (segments.drop i) i [] 0 tw).1 := collectGo_i_ge _ _ _ _ _
  have hadv : 1 ≤ advance (s0 :: ss) ow := advance_pos _ _
  set i2 := (collectGo (segments.drop i) i [] 0 tw).1 + advance (s0 :: ss) ow with hi2
  have hlt : segments.length - i2 < segments.length := by omega
  have hlt' : segments.length - i2 < segments.length + 1 := by omega
  have hsome := buildLoopF_isSome vid title url segments tw ow (segments.length + 1) i2 hlt'
  rcases ho : buildLoopF (segments.length + 1) vid title url segments i2 tw ow with _ | docs
  · rw [ho] at hsome; simp at hsome
  · have hstep : buildLoopF (segments.length + 1) vid title url segments i tw ow
        = some (mkChunk vid title url (s0 :: ss) s0 :: docs) := by
      conv_lhs => rw [show segments.length + 1 = segments.length + 1 from rfl]
      simp only [buildLoopF, if_pos hi, hr]
      rw [← hi2]
      rw [buildLoopF_stable vid title url segments tw ow
        segments.length (segments.length + 1) i2 hlt hlt', ho]
    unfold chunkListFrom
    rw [hstep, ho]
    rfl

theorem build_chunks_eq_chunkListFrom (tr : Transcript) (tw ow : Nat) :
    build_chunks tr tw ow
      = chunkListFrom tr.video_id (if tr.title = "" then "Untitled video" else tr.title)
          tr.url tr.segments 0 tw ow := by
  simp only [build_chunks, buildChunksF, chunkListFrom]
  by_cases h : tr.segments = []
  · rw [if_pos h, h]
    simp [buildLoopF]
  · rw [if_neg h]

theorem buildLoopF_mem_chunk (vid title url : String) (segments : List Segment)
    (tw ow : Nat) :
    ∀ fuel i l, buildLoopF fuel vid title url segments i tw ow = some l →
      ∀ c ∈ l, ∃ (s0 : Segment) (ss : List Segment),
        c = mkChunk vid title url (s0 :: ss) s0
          ∧ (s0 :: ss).Sublist segments
          ∧ ∀ s ∈ s0 :: ss, pyStrip s.text ≠ "" := by
  intro fuel
  induction fuel with
  | zero => intro i l h; simp [buildLoopF] at h
  | succ fuel ih =>
    intro i l h c hc
    simp only [buildLoopF] at h
    by_cases hi : i < segments.length
    · rw [if_pos hi] at h
      rcases hr : (collectGo (segments.drop i) i [] 0 tw).2 with _ | ⟨s0, ss⟩
      · rw [hr] at h
        simp only [Option.some.injEq] at h
        subst h
        simp at hc
      · rw [hr] at h
        rcases ho : buildLoopF fuel vid title url segments
            ((collectGo (segments.drop i) i [] 0 tw).1 + advance (s0 :: ss) ow)
            tw ow with _ | docs
        · rw [ho] at h
          simp at h
        · rw [ho] at h
          simp only [Option.some.injEq] at h
          subst h
          rcases List.mem_cons.1 hc with rfl | hc2
          · obtain ⟨ext, he, hsub, hnb⟩ := collectGo_acc (segments.drop i) i [] 0 tw
            rw [hr] at he
            simp only [List.nil_append] at he
            rw [← he] at hsub hnb
            exact ⟨s0, ss, rfl, hsub.trans (List.drop_sublist i segments), hnb⟩
          · exact ih _ docs ho c hc2
    · rw [if_neg hi] at h
      simp only [Option.some.injEq] at h
      subst h
      simp at hc

theorem drop_mem_of_le {segments : List Segment} {i j : Nat} (hij : i ≤ j)
    {s : Segment} (hs : s ∈ segments.drop j) : s ∈ segments.drop i := by
  have h1 : (segments.drop i).drop (j - i) = segments.drop j := by
    rw [List.drop_drop]
    congr 1
    omega
  rw [← h1] at hs
  exact List.drop_subset _ _ hs

theorem build_chunks_ne_nil_of_nonblank (tr : Transcript) (tw ow : Nat) (htw : 1 ≤ tw)
    (hs : ∃ s ∈ tr.segments, pyStrip s.text ≠ "") : build_chunks tr tw ow ≠ [] := by
  obtain ⟨s, hmem, hnb⟩ := hs
  have hne : tr.segments ≠ [] := fun h => by simp [h] at hmem
  have hlen : 0 < tr.segments.length := List.length_pos.2 hne
  rw [build_chunks_eq_chunkListFrom]
  rcases hr : (collectGo (tr.segments.drop 0) 0 [] 0 tw).2 with _ | ⟨s0, ss⟩
  · exfalso
    have hall := (collectGo_nil_iff (tr.segments.drop 0) 0 tw htw).1 hr
    rw [List.drop_zero] at hall
    exact hnb (hall s hmem)
  · rw [chunkListFrom_step_cons _ _ _ _ tw ow hlen hr]
    simp

/- ----------------------------------------------------------------------
Chunk-count monotonicity (no overlap): helper lemmas for the relational
claim about `target_words`.
---------------------------------------------------------------------- -/

theorem next_index_eq_scanEnd (segments : List Segment) (tw : Nat) {i : Nat}
    {s0 : Segment} {ss : List Segment}
    (hr : (collectGo (segments.drop i) i [] 0 tw).2 = s0 :: ss) :
    (collectGo (segments.drop i) i [] 0 tw).1 + advance (s0 :: ss) 0
      = scanEnd (segments.drop i) i 0 tw := by
  have h1 := collectGo_scanEnd (segments.drop i) i [] 0 tw
  rw [advance_zero_overlap _ (List.cons_ne_nil s0 ss), ← hr]
  simpa using h1

theorem chunkCount_anti_start (vid title url : String) (segments : List Segment)
    (tw : Nat) (htw : 1 ≤ tw) :
    ∀ n i j, i ≤ j → segments.length - j ≤ n →
      (chunkListFrom vid title url segments j tw 0).length
        ≤ (chunkListFrom vid title url segments i tw 0).length := by
  intro n
  induction n with
  | zero =>
    intro i j hij hn
    have hj : segments.length ≤ j := by omega
    rw [chunkListFrom_stop vid title url segments tw 0 hj]
    simp
  | succ n ih =>
    intro i j hij hn
    by_cases hj : j < segments.length
    · have hi : i < segments.length := Nat.lt_of_le_of_lt hij hj
      rcases hrj : (collectGo (segments.drop j) j [] 0 tw).2 with _ | ⟨t0, ts⟩
      · rw [chunkListFrom_step_nil vid title url segments tw 0 hj hrj]
        simp
      · have hnbj : ¬ ∀ s ∈ segments.drop j, pyStrip s.text = "" := by
          intro hall
          have hcoll := (collectGo_nil_iff (segments.drop j) j tw htw).2 hall
          rw [hcoll] at hrj
          exact List.noConfusion hrj
        have hnbi : (collectGo (segments.drop i) i [] 0 tw).2 ≠ [] := by
          intro hnil
          have hall := (collectGo_nil_iff (segments.drop i) i tw htw).1 hnil
          exact hnbj (fun s hs => hall s (drop_mem_of_le hij hs))
        rcases hri : (collectGo (segments.drop i) i [] 0 tw).2 with _ | ⟨u0, us⟩
        · exact absurd hri hnbi
        · rw [chunkListFrom_step_cons vid title url segments tw 0 hj hrj,
            chunkListFrom_step_cons vid title url segments tw 0 hi hri]
          simp only [List.length_cons]
          apply Nat.succ_le_succ
          rw [next_index_eq_scanEnd segments tw hrj, next_index_eq_scanEnd segments tw hri]
          have hscan : scanEnd (segments.drop i) i 0 tw ≤ scanEnd (segments.drop j) j 0 tw :=
            scanEnd_drop_mono segments tw hij
          have hsucc : j + 1 ≤ scanEnd (segments.drop j) j 0 tw := scanEnd_succ_of_lt hj htw
          exact ih _ _ hscan (by omega)
    · rw [chunkListFrom_stop vid title url segments tw 0 (Nat.le_of_not_lt hj)]
      simp

theorem chunkCount_anti_target (vid title url : String) (segments : List Segment)
    {t1 t2 : Nat} (ht1 : 1 ≤ t1) (ht : t1 ≤ t2) :
    ∀ n i, segments.length - i ≤ n →
      (chunkListFrom vid title url segments i t2 0).length
        ≤ (chunkListFrom vid title url segments i t1 0).length := by
  intro n
  induction n with
  | zero =>
    intro i hn
    have hi : segments.length ≤ i := by omega
    rw [chunkListFrom_stop vid title url segments t2 0 hi]
    simp
  | succ n ih =>
    intro i hn
    by_cases hi : i < segments.length
    · rcases hr2 : (collectGo (segments.drop i) i [] 0 t2).2 with _ | ⟨t0, ts⟩
      · rw [chunkListFrom_step_nil vid title url segments t2 0 hi hr2]
        simp
      · have hnb : ¬ ∀ s ∈ segments.drop i, pyStrip s.text = "" := by
          intro hall
          have hcoll := (collectGo_nil_iff (segments.drop i) i t2 (Nat.le_trans ht1 ht)).2 hall
          rw [hcoll] at hr2
          exact List.noConfusion hr2
        have hnb1 : (collectGo (segments.drop i) i [] 0 t1).2 ≠ [] := by
          intro hnil
          exact hnb ((collectGo_nil_iff (segments.drop i) i t1 ht1).1 hnil)
        rcases hr1 : (collectGo (segments.drop i) i [] 0 t1).2 with _ | ⟨u0, us⟩
        · exact absurd hr1 hnb1
        · rw [chunkListFrom_step_cons vid title url segments t2 0 hi hr2,
            chunkListFrom_step_cons vid title url segments t1 0 hi hr1]
          simp only [List.length_cons]
          apply Nat.succ_le_succ
          rw [next_index_eq_scanEnd segments t2 hr2, next_index_eq_scanEnd segments t1 hr1]
          have hmono : scanEnd (segments.drop i) i 0 t1 ≤ scanEnd (segments.drop i) i 0 t2 :=
            scanEnd_mono_t (segments.drop i) i 0 ht
          have hsucc : i + 1 ≤ scanEnd (segments.drop i) i 0 t2 :=
            scanEnd_succ_of_lt hi (Nat.le_trans ht1 ht)
          calc (chunkListFrom vid title url segments (scanEnd (segments.drop i) i 0 t2) t2 0).length
              ≤ (chunkListFrom vid title url segments (scanEnd (segments.drop i) i 0 t2) t1 0).length :=
                ih _ (by omega)
            _ ≤ (chunkListFrom vid title url segments (scanEnd (segments.drop i) i 0 t1) t1 0).length :=
                chunkCount_anti_start vid title url segments t1 ht1 segments.length _ _
                  hmono (by omega)
    · rw [chunkListFrom_stop vid title url segments t2 0 (Nat.le_of_not_lt hi)]
      simp

theorem pyInt_eq_floor {q : ℚ} (h : 0 ≤ q) : pyInt q = ⌊q⌋ := by
  rw [pyInt, Rat.floor_def]
  exact Int.tdiv_eq_ediv (Rat.num_nonneg.2 h) (Int.natCast_nonneg _)

/- ----------------------------------------------------------------------
Claims about the Segment Chunker.
---------------------------------------------------------------------- -/

/-- C1 counterexample: on a transcript whose single segment starts at −1/2
seconds, the produced chunk's `start_time` is `0` (truncation toward zero),
while the floor of every segment start is `−1`; so `start_time` is not the
floor of any segment's start. -/
theorem C1_start_time_floor_counterexample :
    (build_chunks trNegStart 400 50).map (fun c => c.start_time) = [0]
      ∧ trNegStart.segments.map (fun s => (⌊s.start⌋ : ℤ)) = [-1]
      ∧ (0 : ℤ) ≠ -1 :=
  ⟨by decide, by decide, by decide⟩

/-- C1 (amended): every chunk returned by `build_chunks` is assembled by
`mkChunk` from a non-empty ordered sub-sequence of the input's segments, all
with non-blank trimmed text — the chunk's own `chunk_segments` — and its
`start_time` equals the `start` of the first of these (its first
contributing segment, `chunk_segments[0]`) converted to whole seconds by
truncation toward zero (Python `int()`), which coincides with floor whenever
that start is non-negative. -/
theorem C1_start_time_trunc (tr : Transcript) (tw ow : Nat) (c : Chunk)
    (hc : c ∈ build_chunks tr tw ow) :
    ∃ (s0 : Segment) (ss : List Segment),
      c = mkChunk tr.video_id (if tr.title = "" then "Untitled video" else tr.title)
            tr.url (s0 :: ss) s0
        ∧ (s0 :: ss).Sublist tr.segments
        ∧ (∀ s ∈ s0 :: ss, pyStrip s.text ≠ "")
        ∧ c.start_time = pyInt s0.start
        ∧ (0 ≤ s0.start → c.start_time = ⌊s0.start⌋) := by
  rw [build_chunks_eq_chunkListFrom] at hc
  unfold chunkListFrom at hc
  rcases ho : buildLoopF (tr.segments.length + 1) tr.video_id
      (if tr.title = "" then "Untitled video" else tr.title) tr.url tr.segments
      0 tw ow with _ | l
  · rw [ho] at hc
    simp at hc
  · rw [ho] at hc
    obtain ⟨s0, ss, hceq, hsub, hnb⟩ :=
      buildLoopF_mem_chunk _ _ _ _ tw ow _ 0 l ho c hc
    have hst : c.start_time = pyInt s0.start := by
      rw [hceq]
      rfl
    exact ⟨s0, ss, hceq, hsub, hnb, hst, fun h0 => by rw [hst, pyInt_eq_floor h0]⟩

/-- C1 witness: the concrete chunk of `trHello` instantiates the amended
claim; its `start_time` is `7 = ⌊7⌋`, the truncated start of its first (and
only) contributing segment. -/
theorem C1_start_time_trunc_witness :
    chunkHello ∈ build_chunks trHello 400 50
      ∧ ∃ (s0 : Segment) (ss : List Segment),
          chunkHello = mkChunk trHello.video_id
              (if trHello.title = "" then "Untitled video" else trHello.title)
              trHello.url (s0 :: ss) s0
            ∧ (s0 :: ss).Sublist trHello.segments
            ∧ (∀ s ∈ s0 :: ss, pyStrip s.text ≠ "")
            ∧ chunkHello.start_time = pyInt s0.start
            ∧ (0 ≤ s0.start → chunkHello.start_time = ⌊s0.start⌋) :=
  ⟨by decide, C1_start_time_trunc trHello 400 50 chunkHello (by decide)⟩

/-- C4: `build_chunks` terminates on every input: the outer loop finishes
within `segments.length + 1` iterations (the fueled loop returns `some`),
because the index advance of every iteration is at least one segment. -/
theorem C4_build_chunks_terminates (tr : Transcript) (tw ow : Nat) :
    buildChunksF (tr.segments.length + 1) tr tw ow = some (build_chunks tr tw ow)
      ∧ ∀ (chunkSegs : List Segment) (ow' : Nat), 1 ≤ advance chunkSegs ow' := by
  refine ⟨?_, fun chunkSegs ow' => advance_pos chunkSegs ow'⟩
  simp only [buildChunksF, build_chunks]
  by_cases h : tr.segments = []
  · rw [if_pos h]
    rfl
  · rw [if_neg h]
    have hlen : 0 < tr.segments.length := List.length_pos.2 h
    have hsome := buildLoopF_isSome tr.video_id
      (if tr.title = "" then "Untitled video" else tr.title) tr.url tr.segments tw ow
      (tr.segments.length + 1) 0 (by omega)
    rcases ho : buildLoopF (tr.segments.length + 1) tr.video_id
        (if tr.title = "" then "Untitled video" else tr.title) tr.url tr.segments
        0 tw ow with _ | l
    · rw [ho] at hsome
      simp at hsome
    · rfl

/-- C5 counterexample: on five one-word segments with `overlap_words = 3`,
`target_words = 3` yields three chunks but `target_words = 4` yields four,
so lowering `target_words` from 4 to 3 strictly decreases the chunk count. -/
theorem C5_target_words_counterexample :
    (3 : Nat) ≤ 4
      ∧ (build_chunks trFive 3 3).length < (build_chunks trFive 4 3).length :=
  ⟨by decide, by decide⟩

/-- C5 (amended): with no overlap (`overlap_words = 0`) and a positive
target, reducing `target_words` never decreases the number of chunks:
if `1 ≤ t1 ≤ t2` then the count at `t1` is at least the count at `t2`.
(With positive `overlap_words` the claim fails, see the counterexample.) -/
theorem C5_target_words_antitone_no_overlap (tr : Transcript) {t1 t2 : Nat}
    (ht1 : 1 ≤ t1) (ht : t1 ≤ t2) :
    (build_chunks tr t2 0).length ≤ (build_chunks tr t1 0).length := by
  rw [build_chunks_eq_chunkListFrom, build_chunks_eq_chunkListFrom]
  exact chunkCount_anti_target _ _ _ _ ht1 ht tr.segments.length 0 (by omega)

/-- C5 witness: on the five-segment transcript, the count at target 3 is at
most the count at target 2 (no overlap). -/
theorem C5_target_words_antitone_witness :
    (1 : Nat) ≤ 2 ∧ (2 : Nat) ≤ 3
      ∧ (build_chunks trFive 3 0).length ≤ (build_chunks trFive 2 0).length :=
  ⟨by decide, by decide,
    C5_target_words_antitone_no_overlap trFive (by decide) (by decide)⟩

/-- C6 counterexample: a transcript with a (non-empty) list containing one
whitespace-only segment produces no chunks at the default parameters. -/
theorem C6_nonempty_counterexample :
    trBlank.segments ≠ [] ∧ build_chunks trBlank 400 50 = [] :=
  ⟨by decide, by decide⟩

/-- C6 (amended): for every transcript having at least one segment with
non-blank trimmed text, and every positive `target_words` (in particular
the default 400), `build_chunks` returns a non-empty chunk list. -/
theorem C6_nonempty_of_nonblank (tr : Transcript) (tw ow : Nat) (htw : 1 ≤ tw)
    (hs : ∃ s ∈ tr.segments, pyStrip s.text ≠ "") : build_chunks tr tw ow ≠ [] :=
  build_chunks_ne_nil_of_nonblank tr tw ow htw hs

/-- C6 witness: `trHello` has a non-blank segment and yields chunks. -/
theorem C6_nonempty_of_nonblank_witness :
    (1 : Nat) ≤ 400 ∧ (∃ s ∈ trHello.segments, pyStrip s.text ≠ "")
      ∧ build_chunks trHello 400 50 ≠ [] :=
  ⟨by decide, by decide, C6_nonempty_of_nonblank trHello 400 50 (by decide) (by decide)⟩

/- ----------------------------------------------------------------------
Claims about Conversation Memory and `ask`.
---------------------------------------------------------------------- -/

/-- C2 counterexample: the two distinct session ids `"s1 "` and `"s1"` share
history, because both operations key the store by the trimmed id: appending
under `"s1 "` changes what reading `"s1"` returns. -/
theorem C2_isolation_counterexample :
    "s1 " ≠ "s1"
      ∧ get_history (save_history emptyStore "s1 " "q" "a") "s1"
          ≠ get_history emptyStore "s1" :=
  ⟨by decide, by decide⟩

/-- C2 (amended): for two session ids whose *normalised* keys (trimmed,
with blank mapping to `"default"`) differ, appending an exchange under the
first leaves both the stored exchanges and the read-back history of the
second unchanged. -/
theorem C2_session_isolation (store : SessionStore) (A B q a : String)
    (h : normSid A ≠ normSid B) :
    save_history store A q a (normSid B) = store (normSid B)
      ∧ historyWindow (save_history store A q a) B = historyWindow store B
      ∧ get_history (save_history store A q a) B = get_history store B := by
  have hk : save_history store A q a (normSid B) = store (normSid B) := by
    unfold save_history
    rw [if_neg (fun hEq => h (hEq.symm))]
  refine ⟨hk, ?_, ?_⟩
  · unfold historyWindow
    rw [hk]
  · unfold get_history historyWindow
    rw [hk]

/-- C2 witness: sessions `"a"` and `"b"` are genuinely isolated. -/
theorem C2_session_isolation_witness :
    normSid "a" ≠ normSid "b"
      ∧ get_history (save_history emptyStore "a" "q" "x") "b" = get_history emptyStore "b" :=
  ⟨by decide, (C2_session_isolation emptyStore "a" "b" "q" "x" (by decide)).2.2⟩

/-- C7: a read surfaces at most the five most recent exchanges of the
session, oldest first (the window is the reversed-take-5 of the stored list,
reversed back); once more than five exchanges are stored, the window holds
exactly five; and `_save_history` appends unconditionally with no cap. -/
theorem C7_history_bounded (store : SessionStore) (session_id q a : String) :
    (historyWindow store session_id).length ≤ 5
      ∧ historyWindow store session_id
          = ((store (normSid session_id)).reverse.take 5).reverse
      ∧ (5 < (store (normSid session_id)).length →
          (historyWindow store session_id).length = 5)
      ∧ save_history store session_id q a (normSid session_id)
          = store (normSid session_id) ++ [(q, a)] := by
  refine ⟨?_, ?_, ?_, ?_⟩
  · unfold historyWindow
    rw [List.length_drop]
    omega
  · exact List.rtake_eq_reverse_take_reverse _ _
  · intro h
    unfold historyWindow
    rw [List.length_drop]
    omega
  · unfold save_history
    rw [if_pos rfl]

/-- C7 witness: with six stored exchanges the read window has exactly five
entries — the five most recent, oldest first — and an append extends the
stored list. -/
theorem C7_history_bounded_witness :
    5 < (store6 (normSid "s")).length
      ∧ (historyWindow store6 "s").length = 5
      ∧ save_history store6 "s" "q7" "a7" (normSid "s") = store6 "s" ++ [("q7", "a7")] :=
  ⟨by decide, (C7_history_bounded store6 "s" "q7" "a7").2.2.1 (by decide),
    (C7_history_bounded store6 "s" "q7" "a7").2.2.2⟩

/-- C10: both memory operations key the store by the trimmed session id
(blank ids map to `"default"`): ids with equal trims behave identically,
and `""` behaves exactly like `"default"`. -/
theorem C10_session_key_normalisation (store : SessionStore) (A B q a : String)
    (h : pyStrip A = pyStrip B) :
    get_history store A = get_history store B
      ∧ save_history store A q a = save_history store B q a
      ∧ get_history store "" = get_history store "default"
      ∧ save_history store "" q a = save_history store "default" q a := by
  have hnorm : normSid A = normSid B := by
    unfold normSid
    rw [h]
  have hd : normSid "" = normSid "default" := by decide
  refine ⟨?_, ?_, ?_, ?_⟩
  · unfold get_history historyWindow
    rw [hnorm]
  · unfold save_history
    funext k
    rw [hnorm]
  · unfold get_history historyWindow
    rw [hd]
  · unfold save_history
    funext k
    rw [hd]

/-- C10 witness: `" x "` and `"x"` address the same history. -/
theorem C10_session_key_normalisation_witness :
    pyStrip " x " = pyStrip "x"
      ∧ get_history (save_history emptyStore " x " "q" "a") " x "
          = get_history (save_history emptyStore " x " "q" "a") "x" :=
  ⟨by decide,
    (C10_session_key_normalisation (save_history emptyStore " x " "q" "a")
      " x " "x" "q" "a" (by decide)).1⟩

/-- C8: any failure raised by the retrieval-or-generation step inside
`ask`'s `try` block is caught and turned into the fixed user-facing string
that names the exception kind, with the memory store left unchanged; only a
successful turn is persisted (as an appended exchange). -/
theorem C8_ask_error_handling (chain : RagChain) (api_key : String)
    (store : SessionStore) (question session_id : String)
    (hq : pyStrip question ≠ "") (hk : pyStrip api_key ≠ "") :
    (∀ e, chain (pyStrip question) (get_history store session_id) = .error e →
        ask chain api_key store question session_id = (errorAnswer e, store))
      ∧ (∀ answer, chain (pyStrip question) (get_history store session_id) = .ok answer →
          ask chain api_key store question session_id
            = (answer, save_history store session_id (pyStrip question) answer)) := by
  constructor
  · intro e he
    unfold ask
    rw [if_neg hq, if_neg hk]
    dsimp only
    rw [he]
  · intro answer ha
    unfold ask
    rw [if_neg hq, if_neg hk]
    dsimp only
    rw [ha]

/-- C8 witness: a failing chain yields the error string and no memory
write; the error string names the exception kind `ValueError`. -/
theorem C8_ask_error_handling_witness :
    pyStrip "hi" ≠ "" ∧ pyStrip "k" ≠ ""
      ∧ failChain (pyStrip "hi") (get_history emptyStore "s") = .error ⟨"ValueError", "boom"⟩
      ∧ ask failChain "k" emptyStore "hi" "s"
          = (errorAnswer ⟨"ValueError", "boom"⟩, emptyStore) :=
  ⟨by decide, by decide, rfl,
    (C8_ask_error_handling failChain "k" emptyStore "hi" "s" (by decide) (by decide)).1
      ⟨"ValueError", "boom"⟩ rfl⟩

/-- C9: a blank or whitespace-only question makes `ask` return the fixed
prompt-for-input string with the memory store unchanged, and the result does
not depend on the RAG chain at all (no retrieval and no model call). -/
theorem C9_ask_blank_question (chain chain2 : RagChain) (api_key : String)
    (store : SessionStore) (question session_id : String)
    (hq : pyStrip question = "") :
    ask chain api_key store question session_id = ("Please enter a question.", store)
      ∧ ask chain api_key store question session_id
          = ask chain2 api_key store question session_id := by
  constructor
  · unfold ask
    rw [if_pos hq]
  · unfold ask
    rw [if_pos hq, if_pos hq]

/-- C9 witness: the whitespace-only question `"  "` short-circuits, with the
same result under a failing chain and a succeeding chain. -/
theorem C9_ask_blank_question_witness :
    pyStrip "  " = ""
      ∧ ask failChain "k" emptyStore "  " "s" = ("Please enter a question.", emptyStore)
      ∧ ask failChain "k" emptyStore "  " "s" = ask okChain "k" emptyStore "  " "s" :=
  ⟨by decide,
    (C9_ask_blank_question failChain okChain "k" emptyStore "  " "s" (by decide)).1,
    (C9_ask_blank_question failChain okChain "k" emptyStore "  " "s" (by decide)).2⟩

/- ----------------------------------------------------------------------
Claim about the Index Store (`index_documents`).
---------------------------------------------------------------------- -/

theorem index_documents_eq_append (store documents : List Chunk)
    (h : ∀ d ∈ documents, d.video_id ≠ "" ∧ pyStrip d.video_id = d.video_id) :
    index_documents store documents
      = store ++ documents.filter (fun d => ∀ s ∈ store, s.video_id ≠ d.video_id) := by
  by_cases hd : documents = []
  · subst hd
    simp [index_documents]
  · have hfid : documents.filter (fun d => d.video_id ≠ "") = documents := by
      rw [List.filter_eq_self]
      intro d hdm
      simpa using (h d hdm).1
    have hmap : (documents.filter (fun d => d.video_id ≠ "")).map
          (fun d => pyStrip d.video_id) = documents.map (fun d => d.video_id) := by
      rw [hfid]
      exact List.map_congr_left (fun d hdm => (h d hdm).2)
    have hvne : (documents.map (fun d => d.video_id)).dedup ≠ [] := by
      rw [Ne, List.dedup_eq_nil, List.map_eq_nil_iff]
      exact hd
    simp only [index_documents, if_neg hd]
    rw [hmap, if_neg hvne]
    set vids := (documents.map (fun d => d.video_id)).dedup with hvids
    set existing := vids.filter
        (fun vid => vid ≠ "" ∧ (store.filter (fun s => s.video_id = vid)) ≠ []) with hex
    set toIndex := vids.filter (fun vid => vid ∉ existing) with hti
    have hmem_vids : ∀ d ∈ documents, d.video_id ∈ vids := by
      intro d hdm
      rw [hvids, List.mem_dedup]
      exact List.mem_map_of_mem _ hdm
    have hmem_to : ∀ vid, vid ∈ vids →
        (vid ∈ toIndex ↔ store.filter (fun s => s.video_id = vid) = []) := by
      intro vid hv
      have hvne' : vid ≠ "" := by
        rw [hvids, List.mem_dedup, List.mem_map] at hv
        obtain ⟨d, hdm, rfl⟩ := hv
        exact (h d hdm).1
      rw [hti, List.mem_filter]
      simp only [decide_eq_true_eq]
      constructor
      · rintro ⟨-, hnotex⟩
        by_contra hne
        apply hnotex
        rw [hex, List.mem_filter]
        simp only [decide_eq_true_eq]
        exact ⟨hv, hvne', hne⟩
      · intro hnil
        refine ⟨hv, fun hmem => ?_⟩
        rw [hex, List.mem_filter] at hmem
        simp only [decide_eq_true_eq] at hmem
        exact hmem.2.2 hnil
    by_cases hTI : toIndex = []
    · rw [if_pos hTI]
      have hnil : documents.filter (fun d => ∀ s ∈ store, s.video_id ≠ d.video_id) = [] := by
        rw [List.filter_eq_nil_iff]
        intro d hdm
        simp only [decide_eq_true_eq]
        intro hall
        have hv := hmem_vids d hdm
        have hmemTI : d.video_id ∈ toIndex := by
          rw [hmem_to _ hv, List.filter_eq_nil_iff]
          intro s hs
          simp only [decide_eq_true_eq]
          exact fun he => hall s hs he
        rw [hTI] at hmemTI
        simp at hmemTI
      rw [hnil]
      simp
    · rw [if_neg hTI]
      have hdocs : documents.filter (fun d => pyStrip d.video_id ∈ toIndex)
          = documents.filter (fun d => ∀ s ∈ store, s.video_id ≠ d.video_id) := by
        apply List.filter_congr
        intro d hdm
        rw [(h d hdm).2, decide_eq_decide, hmem_to _ (hmem_vids d hdm),
          List.filter_eq_nil_iff]
        constructor
        · intro hf s hs he
          have hb := hf s hs
          simp only [decide_eq_true_eq] at hb
          exact hb he
        · intro hall s hs
          simp only [decide_eq_true_eq]
          exact fun he => hall s hs he
      rw [hdocs]
      by_cases hda : documents.filter (fun d => ∀ s ∈ store, s.video_id ≠ d.video_id) = []
      · rw [if_pos hda, hda]
        simp
      · rw [if_neg hda]

/-- C3: for a batch of chunks with well-formed `video_id` metadata
(non-empty and whitespace-free, as the chunker produces), `index_documents`
appends to the store exactly the chunks whose `video_id` is not already
present; in particular, when every chunk's `video_id` is already indexed
the call is a no-op. -/
theorem C3_index_documents_dedup (store documents : List Chunk)
    (h : ∀ d ∈ documents, d.video_id ≠ "" ∧ pyStrip d.video_id = d.video_id) :
    index_documents store documents
      = store ++ documents.filter (fun d => ∀ s ∈ store, s.video_id ≠ d.video_id)
      ∧ ((∀ d ∈ documents, ∃ s ∈ store, s.video_id = d.video_id) →
          index_documents store documents = store) := by
  refine ⟨index_documents_eq_append store documents h, fun hall => ?_⟩
  rw [index_documents_eq_append store documents h]
  have hnil : documents.filter (fun d => ∀ s ∈ store, s.video_id ≠ d.video_id) = [] := by
    rw [List.filter_eq_nil_iff]
    intro d hdm
    simp only [decide_eq_true_eq]
    intro hne
    obtain ⟨s, hs, he⟩ := hall d hdm
    exact hne s hs he
  rw [hnil]
  simp

/-- C3 witness: with video `vidA` already stored, indexing a batch holding a
second `vidA` chunk and a fresh `vidB` chunk adds only the `vidB` chunk; a
batch of only already-indexed ids is a no-op. -/
theorem C3_index_documents_dedup_witness :
    (∀ d ∈ [chA2, chB], d.video_id ≠ "" ∧ pyStrip d.video_id = d.video_id)
      ∧ index_documents [chA] [chA2, chB]
          = [chA] ++ ([chA2, chB].filter (fun d => ∀ s ∈ [chA], s.video_id ≠ d.video_id))
      ∧ ((∀ d ∈ [chA2], ∃ s ∈ [chA], s.video_id = d.video_id)
          ∧ index_documents [chA] [chA2] = [chA]) :=
  ⟨by decide, (C3_index_documents_dedup [chA] [chA2, chB] (by decide)).1,
    by decide, (C3_index_documents_dedup [chA] [chA2] (by decide)).2 (by decide)⟩
